import Mathlib

/-!
Verification of the UWEPD conversational client's local journal store.

The repository persists one conversation per thread as a JSON file
holding an object with fields `thread_id` (string or null) and
`messages` (array of entry objects).  The store operations are the
Python helpers `_load_memory`, `_append_memory` (one variant without a
trim policy in `client_python.py` / `client_v2.py`, one with a
keep-last-20 trim in `streamlit_mcpclientapp.py`), `get_all_threads`,
`delete_thread`, and the `set_thread_id` rewrite performed inline in
the command-line clients' `main`.

The embedding models a journal file's on-disk state as `FileState`:
`none` means the file is absent, `some JFile.malformed` means the file
exists but its bytes fail `json.load`, and `some (JFile.parsed v)`
means the file exists and `json.load` returns the JSON value `v`.
JSON values are the inductive `JValue`; Python dict operations on
parsed objects are modelled on association lists whose key order is
Python's insertion order (which `json.dump` preserves, and which
`json.load` reproduces).  An operation that would raise a Python
exception is modelled as returning `none` in `Option`.
Timestamps are inputs to the model: the Python code computes them from
the wall clock at append time, which the embedding receives as an
explicit `ts` argument.
-/

namespace UWEPD

/-- A JSON value as produced by `json.load`.  Numbers are modelled as
integers; none of the verified code paths produce or inspect
non-integer numbers. -/
inductive JValue : Type where
  | jnull : JValue
  | jbool (b : Bool) : JValue
  | jnum (n : Int) : JValue
  | jstr (s : String) : JValue
  | jarr (items : List JValue) : JValue
  | jobj (fields : List (String × JValue)) : JValue

/-- The parse outcome for an existing journal file: either its bytes
fail `json.load` (`malformed`), or they parse to a JSON value. -/
inductive JFile : Type where
  | malformed : JFile
  | parsed (v : JValue) : JFile

/-- The on-disk state of one journal file: absent, or present with a
parse outcome. -/
abbrev FileState := Option JFile

/-- Python `d.get(k)` / `d[k]` lookup on a parsed JSON object (first
matching key; parsed objects have unique keys). -/
def dget (fields : List (String × JValue)) (k : String) : Option JValue :=
  match fields with
  | [] => none
  | (k2, v) :: rest => if k2 == k then some v else dget rest k

/-- Python `d[k] = v` on a parsed JSON object: replaces the value at an
existing key in place (key order unchanged), or appends a new key at
the end, matching dict insertion-order semantics. -/
def dset (fields : List (String × JValue)) (k : String) (v : JValue) :
    List (String × JValue) :=
  match fields with
  | [] => [(k, v)]
  | (k2, w) :: rest => if k2 == k then (k2, v) :: rest else (k2, w) :: dset rest k v

/-- Python `d.setdefault(k, v)`: leaves the dict unchanged when the key
is present, otherwise inserts it at the end. -/
def dsetdefault (fields : List (String × JValue)) (k : String) (v : JValue) :
    List (String × JValue) :=
  if (dget fields k).isSome then fields else fields ++ [(k, v)]

/-- Python truthiness of a JSON value (`if thread_id and ...`). -/
def truthy : JValue → Bool
  | .jnull => false
  | .jbool b => b
  | .jnum n => n != 0
  | .jstr s => s != ""
  | .jarr items => !items.isEmpty
  | .jobj fields => !fields.isEmpty

/-- One journal entry as the store writes it, at the typed level. -/
structure Entry : Type where
  ts : String
  role : String
  text : String
  message_id : Option String
  deriving Repr, DecidableEq

/-- A journal at the typed level: the structure the store itself
persists. -/
structure Journal : Type where
  thread_id : Option String
  messages : List Entry
  deriving Repr, DecidableEq

/-- JSON encoding of an optional string (`None` -> `null`). -/
def encOpt : Option String → JValue
  | none => .jnull
  | some s => .jstr s

/-- The entry dict built by `_append_memory`, with its literal key
order `ts, role, text, message_id`. -/
def encodeEntry (e : Entry) : JValue :=
  .jobj [("ts", .jstr e.ts), ("role", .jstr e.role),
         ("text", .jstr e.text), ("message_id", encOpt e.message_id)]

/-- The journal dict as the store persists it, with key order
`thread_id, messages`. -/
def encodeJournal (j : Journal) : JValue :=
  .jobj [("thread_id", encOpt j.thread_id),
         ("messages", .jarr (j.messages.map encodeEntry))]

/-- The file state of a journal file that currently holds the JSON
encoding of journal `j`. -/
def journalFS (j : Journal) : FileState :=
  some (.parsed (encodeJournal j))

/-- The fresh empty journal value returned by `_load_memory` on any
read failure. -/
def freshJournalJV : JValue :=
  .jobj [("thread_id", .jnull), ("messages", .jarr [])]

/-- `_load_memory` (identical in `client_python.py` line 26,
`client_v2.py` line 22, `streamlit_mcpclientapp.py` line 30): if the
file exists, try `json.load` and return its value; on any exception,
or when the file is absent, return the fresh empty journal dict.  The
function is total: no input makes it raise. -/
def load_memory : FileState → JValue
  | none => freshJournalJV
  | some .malformed => freshJournalJV
  | some (.parsed v) => v

/-- `_append_memory` of `client_python.py` line 35 and `client_v2.py`
line 32 (the variant without a trim policy): load, `setdefault`
the `messages` key, append the new entry dict, and write the whole
dict back with `json.dump` over `open(mem_path, "w")`.  Returns `none`
when the Python code would raise (loaded value not a dict, or its
`messages` value not a list); otherwise returns the file state after
the completed write. -/
def append_memory (fs : FileState) (ts role text : String)
    (message_id : Option String) : Option FileState :=
  match load_memory fs with
  | .jobj fields0 =>
    let fields := dsetdefault fields0 "messages" (.jarr [])
    match dget fields "messages" with
    | some (.jarr msgs) =>
      some (some (.parsed (.jobj (dset fields "messages"
        (.jarr (msgs ++ [encodeEntry ⟨ts, role, text, message_id⟩]))))))
    | _ => none
  | _ => none

/-- Python `l[-20:]`: the last 20 elements of a list (the whole list
when it is shorter). -/
def pyLast20 (l : List JValue) : List JValue :=
  l.drop (l.length - 20)

/-- `_append_memory` of `streamlit_mcpclientapp.py` line 39: as
`append_memory`, but after appending it reassigns
`data["messages"] = data["messages"][-20:]` before writing. -/
def append_memory_s (fs : FileState) (ts role text : String)
    (message_id : Option String) : Option FileState :=
  match load_memory fs with
  | .jobj fields0 =>
    let fields := dsetdefault fields0 "messages" (.jarr [])
    match dget fields "messages" with
    | some (.jarr msgs) =>
      some (some (.parsed (.jobj (dset fields "messages"
        (.jarr (pyLast20 (msgs ++ [encodeEntry ⟨ts, role, text, message_id⟩])))))))
    | _ => none
  | _ => none

/-- `delete_thread` of `streamlit_mcpclientapp.py` line 110, restricted
to its file effect: `if mem_path.exists(): mem_path.unlink()` inside a
`try`/`except` that reports rather than raises.  Whether the file was
present or already absent, the resulting state is absent, and the
function is total (deleting an absent file is not an error). -/
def delete_thread (_fs : FileState) : FileState := none

/-- The thread-id stamping performed inline in `client_python.py`
lines 185-189 and `client_v2.py` lines 134-138: load the journal,
assign `mem_data["thread_id"] = thread_id`, and write the dict back.
Returns `none` when the loaded value is not a dict (Python would raise
on the item assignment). -/
def set_thread_id (fs : FileState) (tid : String) : Option FileState :=
  match load_memory fs with
  | .jobj fields => some (some (.parsed (.jobj (dset fields "thread_id" (.jstr tid)))))
  | _ => none

/-! ### Write atomicity model for `_append_memory`

The Python write path is `with mem_path.open("w", ...) as f:
json.dump(data, f, ...)`.  Opening with mode `"w"` truncates the file
immediately; `json.dump` then streams the serialization.  The
serialized text is a JSON object, and no proper prefix of it (the
empty file included) is valid JSON, so every state a reader could
observe between the truncation and the completed write — and the state
left behind if the write fails partway — parses as `malformed`. -/

/-- The sequence of file states observable while `_append_memory`
runs to completion: the state before the call, the truncated /
partially written state after `open("w")`, and the fully written
state.  When the Python code raises before opening the file (loaded
value not a dict, or `messages` not a list — both happen before
`open`), the file is never touched. -/
def append_memory_states (fs : FileState) (ts role text : String)
    (message_id : Option String) : List FileState :=
  match append_memory fs ts role text message_id with
  | some fs2 => [fs, some .malformed, fs2]
  | none => [fs]

/-- The file state left behind when the write inside `_append_memory`
fails after `open("w")` has truncated the file: the partially written
content does not parse.  When the code raises before opening the file,
the previous state survives. -/
def append_memory_on_write_failure (fs : FileState) (ts role text : String)
    (message_id : Option String) : FileState :=
  match append_memory fs ts role text message_id with
  | some _ => some .malformed
  | none => fs

/-! ### Thread directory: `get_all_threads` -/

/-- Python hashability of a JSON value used as a dict key: lists and
dicts raise `TypeError`, scalars are hashable. -/
def hashableKey : JValue → Bool
  | .jarr _ => false
  | .jobj _ => false
  | _ => true

/-- Python `==` on scalar JSON values used as dict keys (`True == 1`
holds in Python). -/
def keyEqPy : JValue → JValue → Bool
  | .jnull, .jnull => true
  | .jbool a, .jbool b => a == b
  | .jstr a, .jstr b => a == b
  | .jnum a, .jnum b => a == b
  | .jbool a, .jnum b => (if a then (1 : Int) else 0) == b
  | .jnum a, .jbool b => a == (if b then (1 : Int) else 0)
  | _, _ => false

/-- Python `threads[key] = value` on an insertion-ordered dict:
replaces the value at an equal existing key (keeping the original key
object and its position), or appends the pair at the end. -/
def dupdateJ (acc : List (JValue × JValue)) (k v : JValue) :
    List (JValue × JValue) :=
  match acc with
  | [] => [(k, v)]
  | (k2, w) :: rest =>
    if keyEqPy k2 k then (k2, v) :: rest else (k2, w) :: dupdateJ rest k v

/-- The generator
`next((msg["text"] for msg in messages if msg["role"] == "user"), "Chat")`
from `get_all_threads` (`streamlit_mcpclientapp.py` line 88), evaluated
lazily over the message list.  `none` models a raised exception: a
non-dict element or a missing `role` key hit before the first match, or
a missing `text` key on the match.  A `role` value that is not a string
compares unequal to `"user"` without raising, as in Python. -/
def first_user_message : List JValue → Option JValue
  | [] => some (.jstr "Chat")
  | m :: rest =>
    match m with
    | .jobj f =>
      match dget f "role" with
      | some (.jstr s) =>
        if s == "user" then dget f "text" else first_user_message rest
      | some _ => first_user_message rest
      | none => none
    | _ => none

/-- Iterating `mem_data["messages"]` element-wise: only a JSON array
yields dict-shaped iteration; every other truthy value makes the loop
body raise on its first item (or the iteration itself raise). -/
def iterMessages : JValue → Option (List JValue)
  | .jarr items => some items
  | _ => none

/-- The loop body fold of `get_all_threads`: `acc` is the dict built so
far, `files` the remaining journal file states in directory iteration
order. -/
def get_all_threads_go : List FileState → List (JValue × JValue) →
    Option (List (JValue × JValue))
  | [], acc => some acc
  | fs :: rest, acc =>
    match load_memory fs with
    | .jobj fields =>
      let tidV := (dget fields "thread_id").getD .jnull
      let msgsV := (dget fields "messages").getD .jnull
      if truthy tidV && truthy msgsV then
        match iterMessages msgsV with
        | some items =>
          match first_user_message items with
          | some label =>
            if hashableKey tidV then
              get_all_threads_go rest (dupdateJ acc tidV label)
            else none
          | none => none
        | none => none
      else get_all_threads_go rest acc
    | _ => none

/-- `get_all_threads` of `streamlit_mcpclientapp.py` line 82: iterate
the journal files (the caller supplies their states in the
`sorted(..., reverse=True)` glob order), load each with the fail-open
`_load_memory`, skip entries whose `thread_id` or `messages` value is
falsy, and record `thread_id -> first user message text` in an
insertion-ordered dict.  `none` models an exception escaping the
function (it has no handler): a loaded value that is not a dict, a
malformed message element reached before the first user message, or an
unhashable `thread_id`. -/
def get_all_threads (files : List FileState) :
    Option (List (JValue × JValue)) :=
  get_all_threads_go files []

/-! ### Journal directory as a state, for read-only operations -/

/-- The journal directory: file states keyed by file name, listed in
the directory's iteration order. -/
abbrev Store := List (String × FileState)

/-- Reading one file's state from the directory (an absent name is an
absent file). -/
def readFile (st : Store) (name : String) : FileState :=
  match st with
  | [] => none
  | (n, fs) :: rest => if n == name then fs else readFile rest name

/-- `_load_memory` as an operation on the whole journal directory: it
opens the named file read-only (`open("r")`) and parses it; the second
component is the directory state after the call. -/
def load_memory_op (st : Store) (name : String) : JValue × Store :=
  (load_memory (readFile st name), st)

/-- `get_all_threads` as an operation on the whole journal directory:
it only globs file names and calls `_load_memory` on each; the second
component is the directory state after the call. -/
def get_all_threads_op (st : Store) :
    Option (List (JValue × JValue)) × Store :=
  (get_all_threads (st.map Prod.snd), st)

/-! ### Thread directory of the command-line client:
`_list_saved_threads` (`client_python.py` line 76) -/

/-- One tuple of the list built by `_list_saved_threads`:
`(thread_id, path, created_ts, last_role, last_text_snippet)`.  JSON
`null` and Python `None` both load as `None`, so `jnull` models the
`None` entries of the tuple. -/
structure SavedItem : Type where
  tid : JValue
  path : String
  created_ts : JValue
  last_role : JValue
  last_snippet : JValue

/-- `msgs[0]["ts"]`, evaluated only when `msgs` is truthy: indexing a
truthy non-array raises on the subsequent `["ts"]` (string element,
number, dict key 0), and a missing `ts` key raises `KeyError`. -/
def firstTsOf : JValue → Option JValue
  | .jarr (m :: _) =>
    match m with
    | .jobj f => dget f "ts"
    | _ => none
  | _ => none

/-- `(msgs[-1]["role"], msgs[-1]["text"])`, evaluated only when `msgs`
is truthy; `none` models the raised exception on a non-array, a
non-dict last element, or a missing key. -/
def lastEntryOf : JValue → Option (JValue × JValue)
  | .jarr items =>
    match items.getLast? with
    | some (.jobj f) =>
      match dget f "role", dget f "text" with
      | some r, some tx => some (r, tx)
      | _, _ => none
    | _ => none
  | _ => none

/-- The snippet computation
`last_text[:57] + "..." if last_text and len(last_text) > 60 else last_text`:
a falsy value is returned as is (the length test is short-circuited);
`len` works on strings, arrays and dicts but raises on numbers and
booleans; the slice-and-concatenate branch succeeds only on strings
(list or dict slicing plus string concatenation raises). -/
def snippetOf (tx : JValue) : Option JValue :=
  if truthy tx then
    match tx with
    | .jstr s => some (if s.length > 60 then .jstr (s.take 57 ++ "...") else .jstr s)
    | .jarr items => if items.length > 60 then none else some (.jarr items)
    | .jobj fields => if fields.length > 60 then none else some (.jobj fields)
    | _ => none
  else some tx

/-- The per-file derived fields of `_list_saved_threads`:
`created_ts = msgs[0]["ts"] if msgs else None`,
`(last_role, last_text) = (msgs[-1]["role"], msgs[-1]["text"]) if msgs
else (None, None)`, and the snippet of `last_text` — all `None` when
`messages` is falsy, and an exception (`none`) when the truthy
`messages` value is malformed. -/
def savedTupleOf (msgs : JValue) : Option (JValue × JValue × JValue) :=
  if truthy msgs then
    match firstTsOf msgs, lastEntryOf msgs with
    | some cts, some (r, tx) =>
      match snippetOf tx with
      | some sn => some (cts, r, sn)
      | none => none
    | _, _ => none
  else some (.jnull, .jnull, .jnull)

/-- The accumulation loop of `_list_saved_threads`
(`client_python.py` lines 78-91) before the final sort: for each file
(in glob order) load it fail-open, read `thread_id` and `messages`
with dict `get`, derive `created_ts`, last role/text and the snippet
when `messages` is truthy, and append the tuple whenever `thread_id`
is truthy — the `messages` list is NOT required to be non-empty.
`none` models an exception escaping the function (no handler): a
non-dict load, or a malformed `messages` value hit by the indexing
above.  Note the tuple fields are computed before the `if tid:` test,
as in the source. -/
def list_saved_threads_items : Store → Option (List SavedItem)
  | [] => some []
  | (name, fs) :: rest =>
    match load_memory fs with
    | .jobj fields =>
      let tid := (dget fields "thread_id").getD .jnull
      let msgs := (dget fields "messages").getD (.jarr [])
      match savedTupleOf msgs with
      | some (cts, r, sn) =>
        match list_saved_threads_items rest with
        | some its =>
          some (if truthy tid then ⟨tid, name, cts, r, sn⟩ :: its else its)
        | none => none
      | none => none
    | _ => none

/-- The sort key `x[2] or ""`: a truthy `created_ts` is the key
itself, a falsy one is replaced by the empty string.  The key
computation never raises; `none` here stands for a key that is not a
string, whose comparison during the sort raises `TypeError`. -/
def keyOf (cts : JValue) : Option String :=
  if truthy cts then
    match cts with
    | .jstr s => some s
    | _ => none
  else some ""

/-- Stable descending insertion by key: the new element goes before
the first strictly smaller key, hence after all equal keys — the
unique stable descending order, which is what Python's stable
`list.sort(key=..., reverse=True)` produces. -/
def insertByKeyDesc (x : String × SavedItem) :
    List (String × SavedItem) → List (String × SavedItem)
  | [] => [x]
  | y :: ys => if y.1 < x.1 then x :: y :: ys else y :: insertByKeyDesc x ys

/-- Stable descending sort of keyed items (insertion sort; the output
of a stable sort is unique, so this matches Python's sort). -/
def sortKeyedDesc (l : List (String × SavedItem)) : List (String × SavedItem) :=
  l.foldl (fun acc x => insertByKeyDesc x acc) []

/-- Pairing every tuple with its sort key (Python computes the key of
every element up front); `none` marks a non-string key, whose
comparison during the sort raises. -/
def keyedItems : List SavedItem → Option (List (String × SavedItem))
  | [] => some []
  | it :: rest =>
    match keyOf it.created_ts with
    | some k =>
      match keyedItems rest with
      | some ks => some ((k, it) :: ks)
      | none => none
    | none => none

/-- `_list_saved_threads`: the accumulated tuples sorted newest-first
by `created_ts or ""`.  With zero or one tuple Python performs no key
comparison, so no sort error can occur; with two or more tuples every
key takes part in some comparison, and a non-string key raises
`TypeError` against a string key — the model raises for any non-string
key in that case (Python could avoid the error only if every
comparison its sort happens to perform pairs two comparable non-string
keys; no statement below depends on that corner, and journal-shaped
files always have string keys). -/
def list_saved_threads (st : Store) : Option (List SavedItem) :=
  match list_saved_threads_items st with
  | some its =>
    if its.length ≤ 1 then some its
    else
      match keyedItems its with
      | some keyed => some ((sortKeyedDesc keyed).map Prod.snd)
      | none => none
  | none => none

/-! ### One chat turn, as it touches the journal file -/

/-- A message as returned by the remote service's
`messages.list(..., order=DESCENDING)`: a role, the text segments
(`text_messages`), and the message id. -/
structure RemoteMsg : Type where
  role : String
  texts : List String
  id : Option String
  deriving Repr, DecidableEq

/-- `_print_latest_assistant` (`client_python.py` line 47): scan the
descending message list for the first message whose role is
`assistant` and which has text segments, and return its last segment's
text; return `""` when none exists. -/
def print_latest_assistant (msgsDesc : List RemoteMsg) : String :=
  match msgsDesc.find? (fun m => m.role == "assistant" && !m.texts.isEmpty) with
  | some m => m.texts.getLastD ""
  | none => ""

/-- The id lookup both clients perform before the assistant append: the
first message in the descending list whose role is `assistant`, taking
its id (`None` when there is no assistant message). -/
def last_assistant_id (msgsDesc : List RemoteMsg) : Option String :=
  match msgsDesc.find? (fun m => m.role == "assistant") with
  | some m => m.id
  | none => none

/-- One user turn of `client_python.py` `main` (lines 207-235),
restricted to its journal-file effects: append the user entry, then —
regardless of the run status, which the code only prints — append the
latest assistant text found on the thread whenever that text is
non-empty.  `msgsDesc` is the remote thread's message list (descending)
as it stands after the run. -/
def python_turn (fs : FileState) (userText : String)
    (userMsgId : Option String) (_runFailed : Bool)
    (msgsDesc : List RemoteMsg) (ts1 ts2 : String) : Option FileState :=
  match append_memory fs ts1 "user" userText userMsgId with
  | some fs1 =>
    let atext := print_latest_assistant msgsDesc
    if atext != "" then
      append_memory fs1 ts2 "assistant" atext (last_assistant_id msgsDesc)
    else some fs1
  | none => none

/-- One user turn of `streamlit_mcpclientapp.py` (lines 234-254),
restricted to its journal-file effects: append the user entry; when
the run status is `failed`, report the error and append nothing else;
otherwise append the retrieved assistant text (possibly empty). -/
def streamlit_turn (fs : FileState) (userText : String)
    (userMsgId : Option String) (runFailed : Bool)
    (msgsDesc : List RemoteMsg) (ts1 ts2 : String) : Option FileState :=
  match append_memory_s fs ts1 "user" userText userMsgId with
  | some fs1 =>
    if runFailed then some fs1
    else
      append_memory_s fs1 ts2 "assistant" (print_latest_assistant msgsDesc)
        (last_assistant_id msgsDesc)
  | none => none

/-! ### Specification-side helpers used to state the claims -/

/-- The arguments of one `_append_memory` call: the wall-clock
timestamp the call would generate, and the `role`, `text`,
`message_id` arguments. -/
structure AppendArgs : Type where
  ts : String
  role : String
  text : String
  message_id : Option String
  deriving Repr, DecidableEq

/-- The journal entry that an `_append_memory` call with these
arguments writes. -/
def entryOf (a : AppendArgs) : Entry :=
  ⟨a.ts, a.role, a.text, a.message_id⟩

/-- A sequence of `_append_memory` calls (untrimmed variant) against
one journal file, each running to completion; `none` when some call
raises. -/
def append_many (fs : FileState) : List AppendArgs → Option FileState
  | [] => some fs
  | a :: rest =>
    match append_memory fs a.ts a.role a.text a.message_id with
    | some fs2 => append_many fs2 rest
    | none => none

/-- A sequence of `_append_memory` calls (streamlit trim variant)
against one journal file. -/
def append_many_s (fs : FileState) : List AppendArgs → Option FileState
  | [] => some fs
  | a :: rest =>
    match append_memory_s fs a.ts a.role a.text a.message_id with
    | some fs2 => append_many_s fs2 rest
    | none => none

/-- Python `l[-20:]` at the typed entry level. -/
def lastN20 (es : List Entry) : List Entry :=
  es.drop (es.length - 20)

/-- The label `get_all_threads` derives for a journal: the text of its
first user-role entry, or the placeholder `"Chat"`. -/
def labelOf (es : List Entry) : String :=
  match es.find? (fun e => e.role == "user") with
  | some e => e.text
  | none => "Chat"

/-- The expected thread listing at the typed level: one
`(thread_id, label)` pair per journal whose `thread_id` is a truthy
(non-null, non-empty) string and whose message list is non-empty, in
directory iteration order. -/
def listing (js : List Journal) : List (String × String) :=
  js.filterMap fun j =>
    match j.thread_id with
    | some t =>
      if t != "" && !j.messages.isEmpty then some (t, labelOf j.messages)
      else none
    | none => none

/-- String-level thread-listing pairs, JSON-encoded as the dict built
by `get_all_threads` holds them. -/
def encPairs (ps : List (String × String)) : List (JValue × JValue) :=
  ps.map fun p => (.jstr p.1, .jstr p.2)

/-- The snippet of a string text, as `_list_saved_threads` displays
it. -/
def pySnippet (s : String) : String :=
  if s.length > 60 then s.take 57 ++ "..." else s

/-- The tuple `_list_saved_threads` builds for a journal-shaped file:
thread id, file name, first entry's timestamp, last entry's role and
snippet of its text — no first-user-message label. -/
def cliItemOf (name : String) (j : Journal) : SavedItem :=
  ⟨encOpt j.thread_id, name,
   (match j.messages.head? with | some e => .jstr e.ts | none => .jnull),
   (match j.messages.getLast? with | some e => .jstr e.role | none => .jnull),
   (match j.messages.getLast? with | some e => .jstr (pySnippet e.text) | none => .jnull)⟩

/-- The expected tuple list of `_list_saved_threads` before sorting:
one tuple per journal whose `thread_id` is a truthy string — journals
with an empty message list included. -/
def cliListing (named : List (String × Journal)) : List SavedItem :=
  named.filterMap fun p =>
    match p.2.thread_id with
    | some t => if t != "" then some (cliItemOf p.1 p.2) else none
    | none => none

/-- A concrete journal with one persisted user entry, used to exhibit
behaviour of the write path on an existing file. -/
def exampleJournal1 : Journal :=
  ⟨some "t", [⟨"t0", "user", "hello", some "m1"⟩]⟩

/-- A concrete journal holding exactly 20 entries, the trim limit. -/
def exampleJournal20 : Journal :=
  ⟨some "t", (List.range 20).map fun i => ⟨toString i, "user", toString i, none⟩⟩

/-- A concrete journal as it stands after one completed user/assistant
turn on thread `t`. -/
def exampleTurnJournal : Journal :=
  ⟨some "t", [⟨"t0", "user", "q1", some "m1"⟩,
              ⟨"t1", "assistant", "old reply", some "a1"⟩]⟩

/-- The remote thread's descending message list after a second user
message was posted and its run failed: the newest message is the just
posted user message, and the only assistant text on the thread is the
previous turn's reply. -/
def exampleMsgsAfterFailedRun : List RemoteMsg :=
  [⟨"user", ["q2"], some "m2"⟩,
   ⟨"assistant", ["old reply"], some "a1"⟩,
   ⟨"user", ["q1"], some "m1"⟩]

/-- Two concrete journals whose first user messages are "Hello" and
"What is Azure?", as in the specification's listing scenario. -/
def exampleThreads : List Journal :=
  [⟨some "t1", [⟨"ts1", "user", "Hello", some "m1"⟩]⟩,
   ⟨some "t2", [⟨"ts2", "user", "What is Azure?", some "m2"⟩]⟩]

/-! ## Basic lemmas about the store operations -/

theorem fresh_eq_encode : freshJournalJV = encodeJournal ⟨none, []⟩ := rfl

theorem load_journalFS (j : Journal) :
    load_memory (journalFS j) = encodeJournal j := rfl

theorem append_memory_journal (j : Journal) (ts role text : String)
    (mid : Option String) :
    append_memory (journalFS j) ts role text mid =
      some (journalFS ⟨j.thread_id, j.messages ++ [⟨ts, role, text, mid⟩]⟩) := by
  simp [append_memory, journalFS, load_memory, encodeJournal, dsetdefault, dget, dset]

theorem append_memory_absent (ts role text : String) (mid : Option String) :
    append_memory none ts role text mid =
      some (journalFS ⟨none, [⟨ts, role, text, mid⟩]⟩) := by
  simp [append_memory, journalFS, load_memory, freshJournalJV, encodeJournal,
    dsetdefault, dget, dset, encOpt]

theorem append_memory_malformed (ts role text : String) (mid : Option String) :
    append_memory (some .malformed) ts role text mid =
      some (journalFS ⟨none, [⟨ts, role, text, mid⟩]⟩) := by
  simp [append_memory, journalFS, load_memory, freshJournalJV, encodeJournal,
    dsetdefault, dget, dset, encOpt]

theorem append_memory_s_journal (j : Journal) (ts role text : String)
    (mid : Option String) :
    append_memory_s (journalFS j) ts role text mid =
      some (journalFS ⟨j.thread_id, lastN20 (j.messages ++ [⟨ts, role, text, mid⟩])⟩) := by
  simp only [append_memory_s, journalFS, load_memory, encodeJournal, dsetdefault,
    dget, dset, pyLast20, lastN20]
  simp [dget, dset, List.map_append]

theorem append_memory_s_absent (ts role text : String) (mid : Option String) :
    append_memory_s none ts role text mid =
      some (journalFS ⟨none, [⟨ts, role, text, mid⟩]⟩) := by
  simp [append_memory_s, journalFS, load_memory, freshJournalJV, encodeJournal,
    dsetdefault, dget, dset, pyLast20, encOpt]

theorem lastN_absorb {α : Type} (n : Nat) (xs ys : List α) :
    (xs.drop (xs.length - n) ++ ys).drop
        ((xs.drop (xs.length - n) ++ ys).length - n) =
      (xs ++ ys).drop ((xs ++ ys).length - n) := by
  rcases Nat.le_total xs.length n with h | h
  · rw [Nat.sub_eq_zero_of_le h]
    simp
  · have hs : xs.length - n ≤ xs.length := Nat.sub_le _ _
    have h1 : (xs.drop (xs.length - n) ++ ys).length - n = ys.length := by
      simp only [List.length_append, List.length_drop]
      omega
    have e1 : (xs ++ ys).length - n = (xs.length - n) + ys.length := by
      simp only [List.length_append]
      omega
    calc (xs.drop (xs.length - n) ++ ys).drop ((xs.drop (xs.length - n) ++ ys).length - n)
        = (xs.drop (xs.length - n) ++ ys).drop ys.length := by rw [h1]
      _ = ((xs ++ ys).drop (xs.length - n)).drop ys.length := by
            rw [List.drop_append_of_le_length hs]
      _ = (xs ++ ys).drop ((xs.length - n) + ys.length) := List.drop_drop _ _ _
      _ = (xs ++ ys).drop ((xs ++ ys).length - n) := by rw [e1]

theorem append_many_journal (args : List AppendArgs) (j : Journal) :
    append_many (journalFS j) args =
      some (journalFS ⟨j.thread_id, j.messages ++ args.map entryOf⟩) := by
  induction args generalizing j with
  | nil => simp [append_many]
  | cons a rest ih =>
    simp only [append_many, append_memory_journal]
    rw [ih]
    simp [entryOf]

theorem append_many_s_journal (args : List AppendArgs) (j : Journal)
    (h : j.messages.length ≤ 20) :
    append_many_s (journalFS j) args =
      some (journalFS ⟨j.thread_id, lastN20 (j.messages ++ args.map entryOf)⟩) := by
  induction args generalizing j with
  | nil => simp [append_many_s, lastN20, Nat.sub_eq_zero_of_le h]
  | cons a rest ih =>
    have hle :
        (lastN20 (j.messages ++ [(⟨a.ts, a.role, a.text, a.message_id⟩ : Entry)])).length ≤ 20 := by
      simp only [lastN20, List.length_drop, List.length_append]
      omega
    simp only [append_many_s, append_memory_s_journal]
    have ih' := ih (Journal.mk j.thread_id
      (lastN20 (j.messages ++ [Entry.mk a.ts a.role a.text a.message_id]))) hle
    rw [ih']
    have key :
        lastN20 (lastN20 (j.messages ++ [(⟨a.ts, a.role, a.text, a.message_id⟩ : Entry)]) ++
            List.map entryOf rest) =
          lastN20 (j.messages ++ List.map entryOf (a :: rest)) := by
      simp only [lastN20]
      rw [lastN_absorb]
      simp [entryOf]
    rw [key]

/-! ## Lemmas about the thread directory -/

theorem first_user_message_encode (es : List Entry) :
    first_user_message (es.map encodeEntry) = some (.jstr (labelOf es)) := by
  induction es with
  | nil => rfl
  | cons e rest ih =>
    by_cases h : e.role = "user"
    · simp [first_user_message, encodeEntry, dget, labelOf, List.find?_cons_of_pos, h]
    · have hb : (e.role == "user") = false := by simp [h]
      simp [first_user_message, encodeEntry, dget, labelOf,
        List.find?_cons_of_neg, hb, ih]

theorem dupdateJ_fresh_key (ps : List (String × String)) (t : String) (v : JValue)
    (h : t ∉ ps.map Prod.fst) :
    dupdateJ (encPairs ps) (.jstr t) v = encPairs ps ++ [(.jstr t, v)] := by
  induction ps with
  | nil => rfl
  | cons p rest ih =>
    simp only [List.map_cons, List.mem_cons, not_or] at h
    obtain ⟨h1, h2⟩ := h
    have hb : (p.1 == t) = false := by
      simp only [beq_eq_false_iff_ne, ne_eq]
      exact fun he => h1 he.symm
    have hstep : dupdateJ (encPairs (p :: rest)) (.jstr t) v =
        (.jstr p.1, .jstr p.2) :: dupdateJ (encPairs rest) (.jstr t) v := by
      simp [encPairs, dupdateJ, keyEqPy, hb]
    rw [hstep, ih h2]
    simp [encPairs]

theorem listing_cons_skip (j : Journal) (rest : List Journal)
    (h : j.thread_id = none ∨ (∃ t, j.thread_id = some t ∧ t = "") ∨ j.messages = []) :
    listing (j :: rest) = listing rest := by
  rcases h with h | ⟨t, ht, he⟩ | h
  · simp [listing, h]
  · simp [listing, ht, he]
  · rcases hjt : j.thread_id with _ | t
    · simp [listing, hjt]
    · simp [listing, hjt, h]

theorem listing_cons_keep (j : Journal) (rest : List Journal) (t : String)
    (ht : j.thread_id = some t) (hne : t ≠ "") (hme : j.messages ≠ []) :
    listing (j :: rest) = (t, labelOf j.messages) :: listing rest := by
  simp [listing, ht, hne, hme]

theorem get_all_threads_go_encode (js : List Journal) :
    ∀ acc : List (String × String),
      ((listing js).map Prod.fst).Nodup →
      (∀ t ∈ acc.map Prod.fst, t ∉ (listing js).map Prod.fst) →
      get_all_threads_go (js.map journalFS) (encPairs acc) =
        some (encPairs (acc ++ listing js)) := by
  induction js with
  | nil =>
    intro acc _ _
    simp [get_all_threads_go, listing]
  | cons j rest ih =>
    intro acc hnd hdisj
    rcases hjt : j.thread_id with _ | t
    · have hlist : listing (j :: rest) = listing rest :=
        listing_cons_skip j rest (Or.inl hjt)
      have hred : get_all_threads_go ((j :: rest).map journalFS) (encPairs acc) =
          get_all_threads_go (rest.map journalFS) (encPairs acc) := by
        simp [get_all_threads_go, journalFS, load_memory, encodeJournal, dget,
          hjt, encOpt, truthy]
      rw [hlist] at hnd hdisj
      rw [hred, hlist]
      exact ih acc hnd hdisj
    · by_cases hte : t = ""
      · have hlist : listing (j :: rest) = listing rest :=
          listing_cons_skip j rest (Or.inr (Or.inl ⟨t, hjt, hte⟩))
        have hred : get_all_threads_go ((j :: rest).map journalFS) (encPairs acc) =
            get_all_threads_go (rest.map journalFS) (encPairs acc) := by
          simp [get_all_threads_go, journalFS, load_memory, encodeJournal, dget,
            hjt, hte, encOpt, truthy]
        rw [hlist] at hnd hdisj
        rw [hred, hlist]
        exact ih acc hnd hdisj
      · by_cases hme : j.messages = []
        · have hlist : listing (j :: rest) = listing rest :=
            listing_cons_skip j rest (Or.inr (Or.inr hme))
          have hred : get_all_threads_go ((j :: rest).map journalFS) (encPairs acc) =
              get_all_threads_go (rest.map journalFS) (encPairs acc) := by
            simp [get_all_threads_go, journalFS, load_memory, encodeJournal, dget,
              hjt, encOpt, truthy, hme]
          rw [hlist] at hnd hdisj
          rw [hred, hlist]
          exact ih acc hnd hdisj
        · have hlist : listing (j :: rest) = (t, labelOf j.messages) :: listing rest :=
            listing_cons_keep j rest t hjt hte hme
          have hthead : t ∈ (listing (j :: rest)).map Prod.fst := by
            rw [hlist]; simp
          have htacc : t ∉ acc.map Prod.fst := fun hin => hdisj t hin hthead
          have hred : get_all_threads_go ((j :: rest).map journalFS) (encPairs acc) =
              get_all_threads_go (rest.map journalFS)
                (dupdateJ (encPairs acc) (.jstr t) (.jstr (labelOf j.messages))) := by
            simp [get_all_threads_go, journalFS, load_memory, encodeJournal, dget,
              hjt, hte, encOpt, truthy, hme, iterMessages, first_user_message_encode,
              hashableKey]
          rw [hred, dupdateJ_fresh_key acc t _ htacc]
          rw [hlist] at hnd
          simp only [List.map_cons, List.nodup_cons] at hnd
          obtain ⟨htr, hndr⟩ := hnd
          have hdisj' : ∀ u ∈ (acc ++ [(t, labelOf j.messages)]).map Prod.fst,
              u ∉ (listing rest).map Prod.fst := by
            intro u hu
            rw [List.map_append] at hu
            rcases List.mem_append.mp hu with hu | hu
            · intro hmem
              apply hdisj u hu
              rw [hlist]
              simp only [List.map_cons]
              exact List.mem_cons_of_mem _ hmem
            · have hut : u = t := by simpa using hu
              subst hut
              exact htr
          have := ih (acc ++ [(t, labelOf j.messages)]) hndr hdisj'
          rw [show encPairs acc ++ [((.jstr t : JValue), (.jstr (labelOf j.messages) : JValue))] =
            encPairs (acc ++ [(t, labelOf j.messages)]) by simp [encPairs]]
          rw [this, hlist]
          simp

/-! ## Lemmas about the command-line thread listing -/

theorem snippetOf_str (s : String) :
    snippetOf (.jstr s) = some (.jstr (pySnippet s)) := by
  by_cases h : s = ""
  · subst h
    simp [snippetOf, truthy, pySnippet]
  · simp only [snippetOf, truthy, pySnippet, h, apply_ite, bne_iff_ne, ne_eq,
      not_false_eq_true, if_true]
    split <;> rfl

theorem lastEntryOf_encode (es : List Entry) (l : Entry) (hl : es.getLast? = some l) :
    lastEntryOf (.jarr (es.map encodeEntry)) = some (.jstr l.role, .jstr l.text) := by
  have hm : (es.map encodeEntry).getLast? = some (encodeEntry l) := by
    rw [List.getLast?_map, hl]
    rfl
  simp [lastEntryOf, hm, encodeEntry, dget]

theorem savedTupleOf_encode (e : Entry) (es' : List Entry) (l : Entry)
    (hl : (e :: es').getLast? = some l) :
    savedTupleOf (.jarr (encodeEntry e :: es'.map encodeEntry)) =
      some (.jstr e.ts, .jstr l.role, .jstr (pySnippet l.text)) := by
  have h2 : firstTsOf (.jarr (encodeEntry e :: es'.map encodeEntry)) =
      some (.jstr e.ts) := by
    simp [firstTsOf, encodeEntry, dget]
  have h3 : lastEntryOf (.jarr (encodeEntry e :: es'.map encodeEntry)) =
      some (.jstr l.role, .jstr l.text) := lastEntryOf_encode (e :: es') l hl
  simp [savedTupleOf, truthy, h2, h3, snippetOf_str]

theorem list_saved_threads_items_encode (named : List (String × Journal)) :
    list_saved_threads_items (named.map fun p => (p.1, journalFS p.2)) =
      some (cliListing named) := by
  induction named with
  | nil => rfl
  | cons p rest ih =>
    obtain ⟨name, j⟩ := p
    have hload : load_memory (journalFS j) = .jobj
        [("thread_id", encOpt j.thread_id),
         ("messages", .jarr (j.messages.map encodeEntry))] := rfl
    rcases hms : j.messages with _ | ⟨e, es'⟩
    · rcases hjt : j.thread_id with _ | t
      · simp [list_saved_threads_items, hload, dget, hms, hjt, encOpt, truthy, ih,
          cliListing, cliItemOf, savedTupleOf]
      · by_cases hte : t = ""
        · simp [list_saved_threads_items, hload, dget, hms, hjt, hte, encOpt,
            truthy, ih, cliListing, cliItemOf, savedTupleOf]
        · simp [list_saved_threads_items, hload, dget, hms, hjt, hte, encOpt,
            truthy, ih, cliListing, cliItemOf, savedTupleOf]
    · obtain ⟨l, hl⟩ : ∃ l, (e :: es').getLast? = some l := by
        cases h2 : (e :: es').getLast? with
        | none => simp at h2
        | some l => exact ⟨l, rfl⟩
      have htuple := savedTupleOf_encode e es' l hl
      rcases hjt : j.thread_id with _ | t
      · simp [list_saved_threads_items, hload, dget, hms, hjt, encOpt, truthy, ih,
          cliListing, cliItemOf, htuple, hl]
      · by_cases hte : t = ""
        · simp [list_saved_threads_items, hload, dget, hms, hjt, hte, encOpt,
            truthy, ih, cliListing, cliItemOf, htuple, hl]
        · simp [list_saved_threads_items, hload, dget, hms, hjt, hte, encOpt,
            truthy, ih, cliListing, cliItemOf, htuple, hl]

theorem insertByKeyDesc_perm (x : String × SavedItem) (l : List (String × SavedItem)) :
    (insertByKeyDesc x l).Perm (x :: l) := by
  induction l with
  | nil => exact List.Perm.refl _
  | cons y ys ih =>
    simp only [insertByKeyDesc]
    by_cases h : y.1 < x.1
    · rw [if_pos h]
    · rw [if_neg h]
      exact (ih.cons y).trans (List.Perm.swap x y ys)

theorem sortKeyedDesc_perm (l : List (String × SavedItem)) :
    (sortKeyedDesc l).Perm l := by
  suffices h : ∀ acc, ((l.foldl (fun acc x => insertByKeyDesc x acc) acc)).Perm (acc ++ l) by
    simpa [sortKeyedDesc] using h []
  induction l with
  | nil => intro acc; simp
  | cons x xs ih =>
    intro acc
    simp only [List.foldl_cons]
    have h1 := ih (insertByKeyDesc x acc)
    have h2 : (insertByKeyDesc x acc ++ xs).Perm (acc ++ x :: xs) :=
      ((insertByKeyDesc_perm x acc).append_right xs).trans List.perm_middle.symm
    exact h1.trans h2

theorem keyedItems_of_shape (its : List SavedItem)
    (h : ∀ it ∈ its, it.created_ts = .jnull ∨ ∃ s, it.created_ts = .jstr s) :
    ∃ keyed, keyedItems its = some keyed ∧ keyed.map Prod.snd = its := by
  induction its with
  | nil => exact ⟨[], rfl, rfl⟩
  | cons it rest ih =>
    obtain ⟨keyed, hk, hmap⟩ := ih (fun x hx => h x (List.mem_cons_of_mem _ hx))
    have hhead : ∃ k, keyOf it.created_ts = some k := by
      rcases h it (List.mem_cons_self _ _) with h0 | ⟨s, hs⟩
      · exact ⟨"", by simp [h0, keyOf, truthy]⟩
      · by_cases he : s = ""
        · exact ⟨"", by simp [hs, he, keyOf, truthy]⟩
        · exact ⟨s, by simp [hs, keyOf, truthy, he]⟩
    obtain ⟨k, hkk⟩ := hhead
    refine ⟨(k, it) :: keyed, ?_, by simp [hmap]⟩
    simp [keyedItems, hkk, hk]

theorem cliListing_created_shape (named : List (String × Journal)) :
    ∀ it ∈ cliListing named, it.created_ts = .jnull ∨ ∃ s, it.created_ts = .jstr s := by
  intro it hit
  rw [cliListing, List.mem_filterMap] at hit
  obtain ⟨p, _, hp⟩ := hit
  rcases hjt : p.2.thread_id with _ | t
  · rw [hjt] at hp
    simp at hp
  · rw [hjt] at hp
    have hp' : (if (t != "") = true then some (cliItemOf p.1 p.2) else none) =
        some it := hp
    by_cases hte : (t != "") = true
    · rw [if_pos hte] at hp'
      have hit2 := Option.some.inj hp'
      subst hit2
      cases hh : p.2.messages.head? with
      | none => left; simp [cliItemOf, hh]
      | some e => right; exact ⟨e.ts, by simp [cliItemOf, hh]⟩
    · rw [if_neg hte] at hp'
      simp at hp'

theorem list_saved_threads_encode (named : List (String × Journal)) :
    ∃ its, list_saved_threads (named.map fun p => (p.1, journalFS p.2)) = some its ∧
      its.Perm (cliListing named) := by
  have hitems := list_saved_threads_items_encode named
  by_cases hlen : (cliListing named).length ≤ 1
  · refine ⟨cliListing named, ?_, List.Perm.refl _⟩
    simp [list_saved_threads, hitems, hlen]
  · obtain ⟨keyed, hk, hmap⟩ := keyedItems_of_shape _ (cliListing_created_shape named)
    refine ⟨(sortKeyedDesc keyed).map Prod.snd, ?_, ?_⟩
    · simp [list_saved_threads, hitems, hlen, hk]
    · have hperm := (sortKeyedDesc_perm keyed).map Prod.snd
      rw [hmap] at hperm
      exact hperm

/-! ## Claim theorems -/

/-- C1: starting from an absent journal file, a sequence of N appends
followed by a load yields exactly the appended entries in append
order, each with the role, text and message id passed to the
corresponding append — all N of them for the untrimmed store of
`client_python.py` / `client_v2.py`, and the last `min(N, 20)` of them
for the trim-20 store of `streamlit_mcpclientapp.py`. -/
theorem claim_C1_appends_then_load (args : List AppendArgs) :
    (∃ fs1, append_many none args = some fs1 ∧
        load_memory fs1 = encodeJournal ⟨none, args.map entryOf⟩ ∧
        (args.map entryOf).length = args.length) ∧
    (∃ fs2, append_many_s none args = some fs2 ∧
        load_memory fs2 = encodeJournal ⟨none, lastN20 (args.map entryOf)⟩ ∧
        (lastN20 (args.map entryOf)).length = min args.length 20) := by
  constructor
  · cases args with
    | nil => exact ⟨none, rfl, rfl, rfl⟩
    | cons a rest =>
      have h1 : append_many none (a :: rest) =
          some (journalFS ⟨none, (a :: rest).map entryOf⟩) := by
        simp only [append_many, append_memory_absent]
        rw [append_many_journal]
        simp [entryOf]
      exact ⟨_, h1, load_journalFS _, by simp⟩
  · cases args with
    | nil => exact ⟨none, rfl, rfl, rfl⟩
    | cons a rest =>
      have h2 : append_many_s none (a :: rest) =
          some (journalFS ⟨none, lastN20 ((a :: rest).map entryOf)⟩) := by
        simp only [append_many_s, append_memory_s_absent]
        have step := append_many_s_journal rest
          ⟨none, [Entry.mk a.ts a.role a.text a.message_id]⟩ (by simp)
        rw [step]
        simp [entryOf]
      refine ⟨_, h2, load_journalFS _, ?_⟩
      simp only [lastN20, List.length_drop, List.length_map, List.length_cons]
      omega

/-- C3: the trim-20 store applies trimming on every single append, the
message list never exceeds 20 entries, and after any sequence of
appends from a fresh file the retained entries are exactly the last
`min(N, 20)` appended ones (the oldest dropped first), in their
original relative order. -/
theorem claim_C3_trim_policy (args : List AppendArgs) :
    (∀ (j : Journal) (a : AppendArgs),
        append_memory_s (journalFS j) a.ts a.role a.text a.message_id =
          some (journalFS ⟨j.thread_id, lastN20 (j.messages ++ [entryOf a])⟩)) ∧
    (∃ fs2, append_many_s none args = some fs2 ∧
        load_memory fs2 =
          encodeJournal ⟨none, (args.map entryOf).drop (args.length - 20)⟩ ∧
        ((args.map entryOf).drop (args.length - 20)).length ≤ 20) := by
  constructor
  · intro j a
    exact append_memory_s_journal j a.ts a.role a.text a.message_id
  · have hdrop : lastN20 (args.map entryOf) =
        (args.map entryOf).drop (args.length - 20) := by
      simp [lastN20]
    cases args with
    | nil => exact ⟨none, rfl, rfl, by simp⟩
    | cons a rest =>
      have h2 : append_many_s none (a :: rest) =
          some (journalFS ⟨none, lastN20 ((a :: rest).map entryOf)⟩) := by
        simp only [append_many_s, append_memory_s_absent]
        have step := append_many_s_journal rest
          ⟨none, [Entry.mk a.ts a.role a.text a.message_id]⟩ (by simp)
        rw [step]
        simp [entryOf]
      rw [hdrop] at h2
      refine ⟨_, h2, load_journalFS _, ?_⟩
      simp only [List.length_drop, List.length_map, List.length_cons]
      omega

/-- C2 counterexample: a file whose bytes are valid JSON but not the
journal structure — here the JSON string `"not a journal"` — is
returned by `_load_memory` as parsed, not replaced by the fresh empty
journal, contradicting the claim that anything failing to parse as the
expected journal structure loads as the fresh empty journal. -/
theorem claim_C2_counterexample :
    load_memory (some (.parsed (.jstr "not a journal"))) = .jstr "not a journal" ∧
    JValue.jstr "not a journal" ≠ freshJournalJV :=
  ⟨rfl, by simp [freshJournalJV]⟩

/-- C2 (amended): `_load_memory` never raises (it is total), returns
the fresh empty journal when the file is absent or its bytes fail to
parse as JSON (malformed or truncated text), and returns the parsed
value unvalidated when the bytes are well-formed JSON — even when that
value is not journal-shaped. -/
theorem claim_C2_load_fail_open (v : JValue) :
    load_memory none = freshJournalJV ∧
    load_memory (some .malformed) = freshJournalJV ∧
    load_memory (some (.parsed v)) = v ∧
    freshJournalJV = encodeJournal ⟨none, []⟩ :=
  ⟨rfl, rfl, rfl, rfl⟩

/-- C4 counterexample: on the concrete journal holding one entry, a
write failure inside `_append_memory` leaves the file in the truncated
unparseable state — the previously persisted content is destroyed, not
preserved — and that half-written state is observable while the append
runs, loading as the fresh empty journal rather than the previous
content.  This contradicts the claim that appends are atomic from the
caller's point of view and that a write failure leaves the previous
content unchanged. -/
theorem claim_C4_counterexample :
    append_memory_on_write_failure (journalFS exampleJournal1) "t1" "user" "again" none =
      some .malformed ∧
    some JFile.malformed ≠ journalFS exampleJournal1 ∧
    some JFile.malformed ∈
      append_memory_states (journalFS exampleJournal1) "t1" "user" "again" none ∧
    load_memory (some .malformed) = freshJournalJV ∧
    freshJournalJV ≠ encodeJournal exampleJournal1 := by
  refine ⟨rfl, ?_, ?_, rfl, ?_⟩
  · simp [journalFS]
  · rw [show append_memory_states (journalFS exampleJournal1) "t1" "user" "again" none =
        [journalFS exampleJournal1, some .malformed,
          journalFS ⟨some "t", [⟨"t0", "user", "hello", some "m1"⟩,
            ⟨"t1", "user", "again", none⟩]⟩] from rfl]
    simp
  · simp [freshJournalJV, encodeJournal, exampleJournal1, encOpt]

/-- C4 (amended): `_append_memory` rewrites the journal file in place:
`open("w")` truncates it, then the new content is written.  While the
write is in progress a reader observes an unparseable file (which
`_load_memory` maps to the fresh empty journal, never an exception or
a half-valid journal); a write failure after the truncation leaves
that unparseable state behind, losing the previous content; when the
write completes the file holds exactly the new journal.  When the code
raises before opening the file, the file is untouched. -/
theorem claim_C4_truncate_then_write (j : Journal) (ts role text : String)
    (mid : Option String) :
    append_memory_states (journalFS j) ts role text mid =
      [journalFS j, some .malformed,
        journalFS ⟨j.thread_id, j.messages ++ [⟨ts, role, text, mid⟩]⟩] ∧
    load_memory (some .malformed) = freshJournalJV ∧
    append_memory_on_write_failure (journalFS j) ts role text mid = some .malformed := by
  refine ⟨?_, rfl, ?_⟩
  · simp [append_memory_states, append_memory_journal]
  · simp [append_memory_on_write_failure, append_memory_journal]

/-- C7: deleting a journal leaves its location absent, so a subsequent
load returns the fresh empty journal (`thread_id = null`,
`messages = []`); deletion is idempotent, and deleting an
already-absent journal is handled without error (the modelled
operation is total on every file state, matching the guarded
`if mem_path.exists(): mem_path.unlink()`). -/
theorem claim_C7_delete_then_load (fs : FileState) :
    delete_thread fs = none ∧
    load_memory (delete_thread fs) = freshJournalJV ∧
    freshJournalJV = encodeJournal ⟨none, []⟩ ∧
    delete_thread (delete_thread fs) = delete_thread fs ∧
    delete_thread none = none :=
  ⟨rfl, rfl, rfl, rfl, rfl⟩

/-- C8 counterexample: on a journal already holding 20 entries, the
trim-20 store's append (a store operation) drops the oldest entry:
the entry at position 0 of the previous message list is no longer
present afterwards, contradicting the claim that no store operation
deletes a single entry. -/
theorem claim_C8_counterexample :
    append_memory_s (journalFS exampleJournal20) "ts20" "user" "new" none =
      some (journalFS ⟨some "t",
        exampleJournal20.messages.drop 1 ++ [⟨"ts20", "user", "new", none⟩]⟩) ∧
    (⟨"0", "user", "0", none⟩ : Entry) ∈ exampleJournal20.messages ∧
    (⟨"0", "user", "0", none⟩ : Entry) ∉
      exampleJournal20.messages.drop 1 ++ [(⟨"ts20", "user", "new", none⟩ : Entry)] := by
  refine ⟨?_, by decide, by decide⟩
  rw [append_memory_s_journal]
  have : lastN20 (exampleJournal20.messages ++ [(⟨"ts20", "user", "new", none⟩ : Entry)]) =
      exampleJournal20.messages.drop 1 ++ [⟨"ts20", "user", "new", none⟩] := by decide
  rw [this]
  rfl

/-- C8 (amended): the untrimmed append adds exactly one entry at the
end and leaves every existing entry unchanged, in place and in order
(no reorder, no dedup, no in-place update, no per-entry delete); the
trim-20 append also adds exactly one entry at the end but then keeps
only the last 20 entries, dropping the oldest ones; the only other
mutation is the whole-journal delete. -/
theorem claim_C8_append_only (j : Journal) (ts role text : String)
    (mid : Option String) :
    append_memory (journalFS j) ts role text mid =
      some (journalFS ⟨j.thread_id, j.messages ++ [⟨ts, role, text, mid⟩]⟩) ∧
    append_memory_s (journalFS j) ts role text mid =
      some (journalFS ⟨j.thread_id,
        (j.messages ++ [(⟨ts, role, text, mid⟩ : Entry)]).drop
          ((j.messages.length + 1) - 20)⟩) ∧
    delete_thread (journalFS j) = none := by
  refine ⟨append_memory_journal j ts role text mid, ?_, rfl⟩
  rw [append_memory_s_journal]
  simp only [lastN20, List.length_append, List.length_cons, List.length_nil]

/-- C9: stamping a journal with its thread identifier rewrites only
the `thread_id` field: every persisted message entry survives the
rewrite unchanged, in value and order; on an absent or unparseable
file the stamp produces the fresh journal carrying the new thread id
and no messages. -/
theorem claim_C9_set_thread_id_frame (j : Journal) (t : String) :
    set_thread_id (journalFS j) t = some (journalFS ⟨some t, j.messages⟩) ∧
    set_thread_id none t = some (journalFS ⟨some t, []⟩) ∧
    set_thread_id (some .malformed) t = some (journalFS ⟨some t, []⟩) := by
  refine ⟨?_, ?_, ?_⟩ <;>
    simp [set_thread_id, load_memory, journalFS, encodeJournal, freshJournalJV,
      dset, encOpt]

/-- C5 counterexample: in the command-line client, a turn whose run
reaches the failure status still appends an assistant entry whenever
any assistant text exists on the thread — here the previous turn's
reply `"old reply"` is re-appended after the failed second turn, so
the journal does not end with the turn's user entry.  This contradicts
the claim that no assistant entry is appended for a failed turn. -/
theorem claim_C5_counterexample :
    python_turn (journalFS exampleTurnJournal) "q2" (some "m2") true
        exampleMsgsAfterFailedRun "t2" "t3" =
      some (journalFS ⟨some "t",
        [⟨"t0", "user", "q1", some "m1"⟩,
         ⟨"t1", "assistant", "old reply", some "a1"⟩,
         ⟨"t2", "user", "q2", some "m2"⟩,
         ⟨"t3", "assistant", "old reply", some "a1"⟩]⟩) ∧
    ([⟨"t0", "user", "q1", some "m1"⟩,
      ⟨"t1", "assistant", "old reply", some "a1"⟩,
      ⟨"t2", "user", "q2", some "m2"⟩,
      ⟨"t3", "assistant", "old reply", some "a1"⟩] : List Entry).getLast? =
      some ⟨"t3", "assistant", "old reply", some "a1"⟩ ∧
    ("assistant" : String) ≠ "user" := by
  refine ⟨rfl, by decide, by decide⟩

/-- C5 (amended): in the browser front end a failed run appends no
assistant entry — unconditionally, whatever assistant text the thread
carries, the turn ends with the user entry recorded last; in the
command-line clients the failure status does not gate persistence:
when the thread carries no assistant text at all (e.g. a first-turn
failure) the turn ends with just the user entry, and otherwise the
latest assistant text on the thread is appended regardless of the
failure. -/
theorem claim_C5_failed_run (j : Journal) (userText : String) (mid : Option String)
    (msgs : List RemoteMsg) (ts1 ts2 : String) :
    (∃ pre, streamlit_turn (journalFS j) userText mid true msgs ts1 ts2 =
        some (journalFS ⟨j.thread_id, pre ++ [⟨ts1, "user", userText, mid⟩]⟩)) ∧
    (print_latest_assistant msgs = "" →
      python_turn (journalFS j) userText mid true msgs ts1 ts2 =
        some (journalFS ⟨j.thread_id, j.messages ++ [⟨ts1, "user", userText, mid⟩]⟩)) ∧
    (print_latest_assistant msgs ≠ "" →
      python_turn (journalFS j) userText mid true msgs ts1 ts2 =
        some (journalFS ⟨j.thread_id,
          (j.messages ++ [⟨ts1, "user", userText, mid⟩]) ++
            [⟨ts2, "assistant", print_latest_assistant msgs,
              last_assistant_id msgs⟩]⟩)) := by
  refine ⟨?_, ?_, ?_⟩
  · refine ⟨j.messages.drop ((j.messages.length + 1) - 20), ?_⟩
    simp only [streamlit_turn, append_memory_s_journal, if_true]
    have hkey : lastN20 (j.messages ++ [(⟨ts1, "user", userText, mid⟩ : Entry)]) =
        j.messages.drop ((j.messages.length + 1) - 20) ++ [⟨ts1, "user", userText, mid⟩] := by
      simp only [lastN20, List.length_append, List.length_cons, List.length_nil]
      rw [List.drop_append_of_le_length (by omega)]
    rw [hkey]
  · intro hnoassist
    simp only [python_turn, append_memory_journal, hnoassist]
    simp
  · intro hassist
    have hb : (print_latest_assistant msgs != "") = true := by simpa using hassist
    simp only [python_turn, append_memory_journal, hb, if_true]

/-- C5 witness for the amended statement: the browser side at a
first-turn failure; the command-line side both at a first-turn failure
(no assistant text, hypothesis discharged by `rfl`) and at a later
failed turn where the thread still carries the previous reply
(hypothesis discharged by `decide`). -/
theorem claim_C5_failed_run_witness :
    (∃ pre, streamlit_turn (journalFS ⟨some "t", []⟩) "hi" (some "m1") true []
          "t0" "t1" =
        some (journalFS ⟨some "t", pre ++ [⟨"t0", "user", "hi", some "m1"⟩]⟩)) ∧
    (print_latest_assistant ([] : List RemoteMsg) = "" ∧
      python_turn (journalFS ⟨some "t", []⟩) "hi" (some "m1") true [] "t0" "t1" =
        some (journalFS ⟨some "t",
          ([] : List Entry) ++ [⟨"t0", "user", "hi", some "m1"⟩]⟩)) ∧
    (print_latest_assistant exampleMsgsAfterFailedRun ≠ "" ∧
      python_turn (journalFS exampleTurnJournal) "q2" (some "m2") true
          exampleMsgsAfterFailedRun "t2" "t3" =
        some (journalFS ⟨exampleTurnJournal.thread_id,
          (exampleTurnJournal.messages ++ [⟨"t2", "user", "q2", some "m2"⟩]) ++
            [⟨"t3", "assistant", print_latest_assistant exampleMsgsAfterFailedRun,
              last_assistant_id exampleMsgsAfterFailedRun⟩]⟩)) :=
  ⟨(claim_C5_failed_run ⟨some "t", []⟩ "hi" (some "m1") [] "t0" "t1").1,
   ⟨rfl, (claim_C5_failed_run ⟨some "t", []⟩ "hi" (some "m1") [] "t0" "t1").2.1 rfl⟩,
   ⟨by decide, (claim_C5_failed_run exampleTurnJournal "q2" (some "m2")
      exampleMsgsAfterFailedRun "t2" "t3").2.2 (by decide)⟩⟩

/-- C6 counterexample: the claim's listing operation also names
`_list_saved_threads` of the command-line client, and that function
does NOT exclude a journal whose message list is empty: on a directory
holding exactly one file whose journal has thread id `"t1"` and no
messages (the state `set_thread_id` leaves on disk before any append),
`_list_saved_threads` returns one tuple for it — and the tuple pairs
the thread id with the file path, a null timestamp and null last-role
and snippet fields, not with a first-user-message label. -/
theorem claim_C6_counterexample :
    (⟨some "t1", []⟩ : Journal).messages = [] ∧
    list_saved_threads [("conversation_t1.json", journalFS ⟨some "t1", []⟩)] =
      some [⟨.jstr "t1", "conversation_t1.json", .jnull, .jnull, .jnull⟩] ∧
    (some [(⟨.jstr "t1", "conversation_t1.json", .jnull, .jnull, .jnull⟩ : SavedItem)] ≠
      (some [] : Option (List SavedItem))) := by
  refine ⟨rfl, rfl, ?_⟩
  simp

/-- C6 (amended): the two listing operations differ.  The browser's
`get_all_threads` (on encoded journals with pairwise distinct listed
thread ids) returns exactly one `(thread_id, label)` pair per journal
whose `thread_id` is a truthy string and whose message list is
non-empty — journals with a null thread id or no messages are
excluded — with the label equal to the text of the journal's first
user-role entry, or the placeholder `"Chat"` when no user entry
exists.  The command-line client's `_list_saved_threads` instead
returns (sorted newest-first) one tuple per journal whose `thread_id`
is a truthy string, regardless of whether the message list is empty,
and pairs the thread id not with a first-user-message label but with
the file path, the first entry's timestamp, and the last entry's role
and text snippet. -/
theorem claim_C6_thread_listing (js : List Journal)
    (named : List (String × Journal))
    (hnd : ((listing js).map Prod.fst).Nodup) :
    (get_all_threads (js.map journalFS) = some (encPairs (listing js)) ∧
      (∀ t lbl, (t, lbl) ∈ listing js ↔
        ∃ j ∈ js, j.thread_id = some t ∧ t ≠ "" ∧ j.messages ≠ [] ∧
          lbl = labelOf j.messages)) ∧
    (list_saved_threads_items (named.map fun p => (p.1, journalFS p.2)) =
        some (cliListing named) ∧
      (∃ its, list_saved_threads (named.map fun p => (p.1, journalFS p.2)) =
          some its ∧ its.Perm (cliListing named)) ∧
      (∀ im, im ∈ cliListing named ↔
        ∃ p ∈ named, (∃ t, p.2.thread_id = some t ∧ t ≠ "") ∧
          im = cliItemOf p.1 p.2)) := by
  refine ⟨⟨?_, ?_⟩, list_saved_threads_items_encode named,
    list_saved_threads_encode named, ?_⟩
  · have h := get_all_threads_go_encode js [] hnd (by simp)
    simpa [get_all_threads, encPairs] using h
  · intro t lbl
    simp only [listing, List.mem_filterMap]
    constructor
    · rintro ⟨j, hjmem, hf⟩
      rcases hjt : j.thread_id with _ | u
      · rw [hjt] at hf
        simp at hf
      · rw [hjt] at hf
        have hf' : (if (u != "" && !j.messages.isEmpty) = true then
            some (u, labelOf j.messages) else none) = some (t, lbl) := hf
        by_cases hcond : (u != "" && !j.messages.isEmpty) = true
        · rw [if_pos hcond] at hf'
          have h1 : u = t ∧ labelOf j.messages = lbl := by
            simpa using hf'
          obtain ⟨hut, hlbl⟩ := h1
          subst hut
          simp only [Bool.and_eq_true, bne_iff_ne, ne_eq,
            Bool.not_eq_true', List.isEmpty_eq_false] at hcond
          exact ⟨j, hjmem, hjt, hcond.1, hcond.2, hlbl.symm⟩
        · rw [if_neg hcond] at hf'
          simp at hf'
    · rintro ⟨j, hjmem, hjt, hne, hme, hlbl⟩
      refine ⟨j, hjmem, ?_⟩
      rw [hjt]
      show (if (t != "" && !j.messages.isEmpty) = true then
          some (t, labelOf j.messages) else none) = some (t, lbl)
      rw [if_pos (by simp [hne, hme]), hlbl]
  · intro im
    simp only [cliListing, List.mem_filterMap]
    constructor
    · rintro ⟨p, hpmem, hp⟩
      rcases hjt : p.2.thread_id with _ | u
      · rw [hjt] at hp
        simp at hp
      · rw [hjt] at hp
        have hp' : (if (u != "") = true then some (cliItemOf p.1 p.2) else none) =
            some im := hp
        by_cases hcond : (u != "") = true
        · rw [if_pos hcond] at hp'
          exact ⟨p, hpmem, ⟨u, hjt, by simpa using hcond⟩,
            (Option.some.inj hp').symm⟩
        · rw [if_neg hcond] at hp'
          simp at hp'
    · rintro ⟨p, hpmem, ⟨u, hju, hune⟩, him⟩
      refine ⟨p, hpmem, ?_⟩
      rw [hju]
      show (if (u != "") = true then some (cliItemOf p.1 p.2) else none) = some im
      rw [if_pos (by simpa using hune), him]

/-- C6 witness: the specification's concrete scenario — two journals
whose first user messages are "Hello" and "What is Azure?" — for the
browser listing, together with a one-file directory holding an
empty-messages journal for the command-line listing. -/
theorem claim_C6_thread_listing_witness :
    ((listing exampleThreads).map Prod.fst).Nodup ∧
    ((get_all_threads (exampleThreads.map journalFS) =
        some (encPairs (listing exampleThreads)) ∧
      (∀ t lbl, (t, lbl) ∈ listing exampleThreads ↔
        ∃ j ∈ exampleThreads, j.thread_id = some t ∧ t ≠ "" ∧ j.messages ≠ [] ∧
          lbl = labelOf j.messages)) ∧
    (list_saved_threads_items
        (([("conversation_t1.json", ⟨some "t1", []⟩)] : List (String × Journal)).map
          fun p => (p.1, journalFS p.2)) =
        some (cliListing [("conversation_t1.json", ⟨some "t1", []⟩)]) ∧
      (∃ its, list_saved_threads
          (([("conversation_t1.json", ⟨some "t1", []⟩)] : List (String × Journal)).map
            fun p => (p.1, journalFS p.2)) =
          some its ∧ its.Perm (cliListing [("conversation_t1.json", ⟨some "t1", []⟩)])) ∧
      (∀ im, im ∈ cliListing [("conversation_t1.json", ⟨some "t1", []⟩)] ↔
        ∃ p ∈ ([("conversation_t1.json", ⟨some "t1", []⟩)] : List (String × Journal)),
          (∃ t, p.2.thread_id = some t ∧ t ≠ "") ∧ im = cliItemOf p.1 p.2))) :=
  ⟨by decide,
   claim_C6_thread_listing exampleThreads
     [("conversation_t1.json", ⟨some "t1", []⟩)] (by decide)⟩

/-- C10: `_load_memory` and the thread listing built on it leave the
journal directory exactly as it was: every file's state after the
call equals its state before, and the set of files (names) is
unchanged — no journal file is created, modified or deleted. -/
theorem claim_C10_reads_pure (st : Store) (name : String) :
    (load_memory_op st name).2 = st ∧
    (load_memory_op st name).1 = load_memory (readFile st name) ∧
    (get_all_threads_op st).2 = st ∧
    ((get_all_threads_op st).2).map Prod.fst = st.map Prod.fst :=
  ⟨rfl, rfl, rfl, rfl⟩

end UWEPD
